import Mathlib

/-!
Verification of the seasonal forecast sweep of `superstore_app.py`
(`SuperstoreAgent.forecast_all_products` and the `__init__` loading step).

Shallow embedding conventions:
* A transaction row (`Txn`) carries the product name, the calendar month of
  the parsed order date (as an absolute month index `Nat`), and the sales
  amount as an exact rational (the spec prescribes exact decimal summation).
* `pandas` operations are embedded by their semantics on lists of rows:
  `df['Product Name'].unique()` is `uniqueFirstSeen` (first-seen order),
  `df[df['Product Name'] == p]` is `txnsOf`, and
  `set_index('Order Date').resample('M')['Sales'].sum().fillna(0)` is
  `monthlySeries`: one bucket per calendar month from the first to the last
  observed month, each bucket the sum of the sales amounts falling in it.
* The external statsmodels call
  `ExponentialSmoothing(s, seasonal='add', seasonal_periods=12).fit().forecast(6)`
  is third-party library code, embedded by its interface: an abstract fitter
  `fitfn : List Rat → Option (Nat → Rat)` that either fails (the library
  raised, caught by the bare `except`) or returns a predictor; a successful
  `forecast(6)` yields the predicted values at the 6 months immediately
  following the last observed month, which is how `forecast_all_products`
  builds the per-product result below.
* `pd.DataFrame(forecasts)` on a dict of series is embedded by `frameIndex`
  (sorted union of the series indices) and `frameCell` (the value when the
  month is in that product's series, `none` — NaN — otherwise).
-/

namespace Superstore

/-- A parsed transaction row: product identity, calendar month of the order
date (absolute month index), and sales amount. -/
structure Txn where
  product : String
  month : Nat
  sales : Rat
deriving DecidableEq

/-- Helper for `uniqueFirstSeen`: keep the elements not yet seen, in order. -/
def uniqueAux (seen : List String) : List String → List String
  | [] => []
  | p :: ps => if seen.contains p then uniqueAux seen ps else p :: uniqueAux (p :: seen) ps

/-- `df['Product Name'].unique()`: the distinct values in first-seen order. -/
def uniqueFirstSeen (l : List String) : List String :=
  uniqueAux [] l

/-- `df[df['Product Name'] == product]`: the rows of one product. -/
def txnsOf (df : List Txn) (p : String) : List Txn :=
  df.filter (fun t => t.product = p)

/-- The order-date months of a list of rows. -/
def monthsOf (ts : List Txn) : List Nat :=
  ts.map (fun t => t.month)

/-- The last observed month (max of the month indices; `0` on no rows,
a case the sweep never reaches because products are drawn from the rows). -/
def lastMonth (ts : List Txn) : Nat :=
  (monthsOf ts).foldr max 0

/-- The first observed month (min of the month indices; seeded with
`lastMonth` so that on a nonempty list it is the least observed month). -/
def firstMonth (ts : List Txn) : Nat :=
  (monthsOf ts).foldr min (lastMonth ts)

/-- The contiguous calendar months from `a` to `b` inclusive. -/
def monthRange (a b : Nat) : List Nat :=
  (List.range (b + 1 - a)).map (fun i => a + i)

/-- One resample bucket: the sum of the sales amounts of the rows whose
order date falls in month `m`. -/
def monthTotal (ts : List Txn) (m : Nat) : Rat :=
  ((ts.filter (fun t => t.month = m)).map (fun t => t.sales)).sum

/-- `set_index('Order Date').resample('M')['Sales'].sum().fillna(0)`:
the zero-filled monthly series, one `(month, total)` pair per calendar month
between the first and last observed order date. -/
def monthlySeries (ts : List Txn) : List (Nat × Rat) :=
  (monthRange (firstMonth ts) (lastMonth ts)).map (fun m => (m, monthTotal ts m))

/-- The per-product forecast result: `(month, predicted sales)` pairs. -/
abbrev Forecast := List (Nat × Rat)

/-- The abstract seasonal fitter: the statsmodels
`ExponentialSmoothing(·, seasonal='add', seasonal_periods=12).fit()` call,
returning `none` when the library raises (the bare `except` branch) and a
step-indexed predictor on success. -/
abbrev Fitter := List Rat → Option (Nat → Rat)

/-- The body of one iteration of the sweep loop for product `p`:
build the monthly series, skip (`continue`) when it is shorter than
`minM` months, otherwise try the seasonal fit and on success take the
6-step forecast, whose months immediately follow the last observed month. -/
def perProduct (fitfn : Fitter) (minM : Nat) (df : List Txn) (p : String) :
    Option Forecast :=
  if (monthlySeries (txnsOf df p)).length < minM then none
  else
    match fitfn ((monthlySeries (txnsOf df p)).map Prod.snd) with
    | none => none
    | some f =>
      some ((List.range 6).map (fun i => (lastMonth (txnsOf df p) + 1 + i, f i)))

/-- `SuperstoreAgent.forecast_all_products`: sweep the products in first-seen
order, collecting the successful per-product forecasts into the output
mapping (a key-value list in insertion order, as a Python dict). -/
def forecast_all_products (fitfn : Fitter) (df : List Txn) (minM : Nat) :
    List (String × Forecast) :=
  (uniqueFirstSeen (df.map (fun t => t.product))).filterMap
    (fun p => (perProduct fitfn minM df p).map (fun fc => (p, fc)))

/-- Insert a month into a sorted duplicate-free list of months. -/
def insertMonth (m : Nat) : List Nat → List Nat
  | [] => [m]
  | x :: xs =>
    if m < x then m :: x :: xs
    else if m = x then x :: xs
    else x :: insertMonth m xs

/-- The index of `pd.DataFrame(forecasts)`: the sorted union of the months
appearing in the per-product series. -/
def frameIndex (fcs : List (String × Forecast)) : List Nat :=
  ((fcs.map (fun pr => pr.2.map Prod.fst)).flatten).foldr insertMonth []

/-- One cell of `pd.DataFrame(forecasts)`: the value of product `p` at row
month `m`, or `none` (NaN) when `m` is not in that product's series. -/
def frameCell (fcs : List (String × Forecast)) (p : String) (m : Nat) :
    Option Rat :=
  match fcs.find? (fun pr => pr.1 = p) with
  | none => none
  | some pr => (pr.2.find? (fun mv => mv.1 = m)).map Prod.snd

/-- A fitter that always succeeds, predicting zero (a behaviour the real
library exhibits: with at least two full 12-month seasonal cycles of data
the fit goes through without raising). -/
def fit0 : Fitter := fun _ => some (fun _ => 0)

/-- A fitter that always fails (the library raising on every series). -/
def fitNone : Fitter := fun _ => none

/-! ### Loading (`__init__`) and the column contract

`__init__` reads the table and parses the `Order Date` column
(`pd.to_datetime`), raising on a missing column or an unparseable date.
`forecast_all_products` then touches `Product Name` (line 42, before the
loop) and, inside the loop body only, `Sales` (line 45) — so a missing
`Sales` column raises exactly when at least one product row exists.
`pd.to_datetime` itself is external; it is abstracted as
`parse : String → Option Nat` giving the month index of a parseable date. -/

/-- An unparsed spreadsheet row; a field is meaningful only when the
corresponding column is listed in the table's `cols`. -/
structure RawRow where
  product : String
  orderDate : String
  sales : Rat
deriving DecidableEq

/-- The uploaded table: its column names and its rows. -/
structure RawTable where
  cols : List String
  rows : List RawRow
deriving DecidableEq

/-- The hard failures the pipeline can raise. -/
inductive LoadError where
  | missingColumn (c : String)
  | badDate (s : String)
deriving DecidableEq

/-- `pd.to_datetime(self.df['Order Date'])`: parse every order date, failing
on the first unparseable one. -/
def parseRows (parse : String → Option Nat) : List RawRow → Except LoadError (List Txn)
  | [] => .ok []
  | r :: rs =>
    match parse r.orderDate with
    | none => .error (.badDate r.orderDate)
    | some m =>
      match parseRows parse rs with
      | .error e => .error e
      | .ok ts => .ok ({ product := r.product, month := m, sales := r.sales } :: ts)

/-- `SuperstoreAgent.__init__`: check the `Order Date` column exists, then
parse every order date. -/
def loadAgent (parse : String → Option Nat) (t : RawTable) : Except LoadError (List Txn) :=
  if "Order Date" ∈ t.cols then parseRows parse t.rows
  else .error (.missingColumn "Order Date")

/-- `forecast_all_products` with its column accesses made explicit:
`Product Name` is read before the loop; `Sales` is read in the loop body,
hence only when the product list is nonempty. -/
def forecastChecked (fitfn : Fitter) (minM : Nat) (t : RawTable) (txns : List Txn) :
    Except LoadError (List (String × Forecast)) :=
  if "Product Name" ∈ t.cols then
    if uniqueFirstSeen (txns.map (fun x => x.product)) = [] then
      .ok (forecast_all_products fitfn txns minM)
    else if "Sales" ∈ t.cols then .ok (forecast_all_products fitfn txns minM)
    else .error (.missingColumn "Sales")
  else .error (.missingColumn "Product Name")

/-- The whole pipeline: load (`__init__`) then sweep. -/
def runSweep (parse : String → Option Nat) (fitfn : Fitter) (minM : Nat)
    (t : RawTable) : Except LoadError (List (String × Forecast)) :=
  match loadAgent parse t with
  | .error e => .error e
  | .ok txns => forecastChecked fitfn minM t txns

/-- Well-formed input as the spec describes it: all three required columns
present and every order date parseable. -/
def wellFormedInput (parse : String → Option Nat) (t : RawTable) : Prop :=
  "Order Date" ∈ t.cols ∧ "Product Name" ∈ t.cols ∧ "Sales" ∈ t.cols ∧
    ∀ r ∈ t.rows, (parse r.orderDate).isSome

instance (parse : String → Option Nat) (t : RawTable) :
    Decidable (wellFormedInput parse t) := by
  unfold wellFormedInput; infer_instance

/-- The agent object: its only field is the transaction table `self.df`. -/
structure Agent where
  df : List Txn
deriving DecidableEq

/-- `forecast_all_products` as a state-passing method on the agent: the body
only reads `self.df` (lines 42 and 44) and assigns no attribute, so the
post-state is the pre-state. -/
def forecastAllProductsAgent (fitfn : Fitter) (minM : Nat) (a : Agent) :
    (List (String × Forecast)) × Agent :=
  (forecast_all_products fitfn a.df minM, a)

/-- Helper: the distinct values of a list of months, first-seen order. -/
def uniqueMonthsAux (seen : List Nat) : List Nat → List Nat
  | [] => []
  | m :: ms => if seen.contains m then uniqueMonthsAux seen ms else m :: uniqueMonthsAux (m :: seen) ms

/-- The number of distinct calendar months with observed transactions —
what the claim about the minimum-history guard quantifies over. The code's
guard instead measures the zero-filled span `(monthlySeries ts).length`. -/
def distinctMonths (ts : List Txn) : Nat :=
  (uniqueMonthsAux [] (monthsOf ts)).length

/-- Concrete input: one product observed in just two distinct months that
are 24 calendar months apart, so its zero-filled span has 24 entries. -/
def dfC1 : List Txn := [⟨"A", 0, 1⟩, ⟨"A", 23, 1⟩]

/-- Concrete input: product `A` spans 12 months (qualifies), product `B`
spans 5 months (does not). -/
def dfD : List Txn := [⟨"A", 0, 1⟩, ⟨"A", 11, 1⟩, ⟨"B", 0, 1⟩, ⟨"B", 4, 1⟩]

/-- Concrete input: two rows of one product in the same month. -/
def dfP : List Txn := [⟨"A", 1, 2⟩, ⟨"A", 1, 3⟩]

/-- `dfP` with its rows swapped. -/
def dfP' : List Txn := [⟨"A", 1, 3⟩, ⟨"A", 1, 2⟩]

/-- Concrete input: product `A` observed in two rows, with a silent month
in between. -/
def dfTwo : List Txn := [⟨"A", 3, 5⟩, ⟨"A", 1, 2⟩]

/-- Concrete input: two qualifying products whose last observed months
differ (`A` ends at month 23, `B` at month 24). -/
def dfX : List Txn := [⟨"A", 0, 1⟩, ⟨"A", 23, 1⟩, ⟨"B", 1, 1⟩, ⟨"B", 24, 1⟩]

/-- A raw table with the order-date and product-name columns but no sales
column, and no rows at all. -/
def t0 : RawTable := { cols := ["Order Date", "Product Name"], rows := [] }

/-- A date parser that accepts everything as month 0 (the rows it is used
on are irrelevant or empty). -/
def parse0 : String → Option Nat := fun _ => some 0

/-! ### Helper lemmas -/

theorem mem_uniqueAux {q : String} :
    ∀ (l seen : List String), q ∈ uniqueAux seen l ↔ q ∈ l ∧ q ∉ seen := by
  intro l
  induction l with
  | nil => intro seen; simp [uniqueAux]
  | cons p ps ih =>
    intro seen
    by_cases hps : p ∈ seen
    · have hc : seen.contains p = true := List.elem_iff.mpr hps
      rw [uniqueAux, if_pos hc, ih seen, List.mem_cons]
      constructor
      · rintro ⟨h1, h2⟩; exact ⟨Or.inr h1, h2⟩
      · rintro ⟨h1 | h1, h2⟩
        · exact absurd (h1 ▸ hps) h2
        · exact ⟨h1, h2⟩
    · have hc : ¬ seen.contains p = true := fun h => hps (List.elem_iff.mp h)
      rw [uniqueAux, if_neg hc, List.mem_cons, List.mem_cons, ih (p :: seen)]
      constructor
      · rintro (rfl | ⟨h1, h2⟩)
        · exact ⟨Or.inl rfl, hps⟩
        · exact ⟨Or.inr h1, fun h => h2 (List.mem_cons_of_mem _ h)⟩
      · rintro ⟨rfl | h1, h2⟩
        · exact Or.inl rfl
        · by_cases hqp : q = p
          · exact Or.inl hqp
          · exact Or.inr ⟨h1, fun h => by
              rcases List.mem_cons.mp h with h' | h'
              · exact hqp h'
              · exact h2 h'⟩

theorem mem_uniqueFirstSeen {q : String} {l : List String} :
    q ∈ uniqueFirstSeen l ↔ q ∈ l := by
  rw [uniqueFirstSeen, mem_uniqueAux]
  simp

theorem uniqueFirstSeen_eq_nil {l : List String} :
    uniqueFirstSeen l = [] ↔ l = [] := by
  cases l with
  | nil => simp [uniqueFirstSeen, uniqueAux]
  | cons p ps => simp [uniqueFirstSeen, uniqueAux]

theorem find?_filterMap_key {β : Type} (h : String → Option β) (q : String) :
    ∀ l : List String,
      (l.filterMap (fun p => (h p).map (fun b => (p, b)))).find?
          (fun pr => pr.1 = q) =
        if q ∈ l then (h q).map (fun b => (q, b)) else none := by
  intro l
  induction l with
  | nil => simp
  | cons a l ih =>
    by_cases haq : a = q
    · subst haq
      cases hha : h a with
      | none => simp [List.filterMap_cons, hha, ih]
      | some b => simp [List.filterMap_cons, hha]
    · cases hha : h a with
      | none => simp [List.filterMap_cons, hha, ih, haq, Ne.symm haq]
      | some b => simp [List.filterMap_cons, hha, ih, haq, Ne.symm haq]

theorem map_fst_filterMap {β : Type} (h : String → Option β) :
    ∀ l : List String,
      (l.filterMap (fun p => (h p).map (fun b => (p, b)))).map Prod.fst =
        l.filter (fun p => (h p).isSome) := by
  intro l
  induction l with
  | nil => simp
  | cons a l ih => cases hha : h a <;>
    simp [List.filterMap_cons, hha, List.filter_cons, ih]

theorem find?_forecast (fitfn : Fitter) (df : List Txn) (minM : Nat) (q : String) :
    (forecast_all_products fitfn df minM).find? (fun pr => pr.1 = q) =
      if q ∈ df.map (fun t => t.product) then
        (perProduct fitfn minM df q).map (fun fc => (q, fc))
      else none := by
  unfold forecast_all_products
  rw [find?_filterMap_key]
  by_cases hq : q ∈ df.map (fun t => t.product)
  · rw [if_pos (mem_uniqueFirstSeen.mpr hq), if_pos hq]
  · rw [if_neg (fun h => hq (mem_uniqueFirstSeen.mp h)), if_neg hq]

theorem mem_monthRange {a b m : Nat} : m ∈ monthRange a b ↔ a ≤ m ∧ m ≤ b := by
  simp only [monthRange, List.mem_map, List.mem_range]
  constructor
  · rintro ⟨i, hi, rfl⟩; omega
  · rintro ⟨h1, h2⟩; exact ⟨m - a, by omega, by omega⟩

theorem sorted_monthRange (a b : Nat) : (monthRange a b).Sorted (· < ·) := by
  rw [monthRange, List.Sorted, List.pairwise_map]
  exact (List.pairwise_lt_range _).imp (fun h => by omega)

theorem sorted_shift_range (k n : Nat) :
    ((List.range n).map (fun i => k + i)).Sorted (· < ·) := by
  rw [List.Sorted, List.pairwise_map]
  exact (List.pairwise_lt_range _).imp (fun h => by omega)

theorem le_foldr_max (l : List Nat) (i : Nat) : ∀ m ∈ l, m ≤ l.foldr max i := by
  induction l with
  | nil => simp
  | cons a l ih =>
    intro m hm
    rcases List.mem_cons.mp hm with rfl | hm
    · exact le_max_left _ _
    · exact le_trans (ih m hm) (le_max_right _ _)

theorem foldr_max_mem (l : List Nat) (i : Nat) :
    l.foldr max i ∈ l ∨ l.foldr max i = i := by
  induction l with
  | nil => right; rfl
  | cons a l ih =>
    rcases le_total a (l.foldr max i) with h | h
    · rw [List.foldr_cons, max_eq_right h]
      rcases ih with h' | h'
      · exact Or.inl (List.mem_cons_of_mem _ h')
      · exact Or.inr h'
    · rw [List.foldr_cons, max_eq_left h]
      exact Or.inl (List.mem_cons_self _ _)

theorem foldr_min_le (l : List Nat) (i : Nat) : ∀ m ∈ l, l.foldr min i ≤ m := by
  induction l with
  | nil => simp
  | cons a l ih =>
    intro m hm
    rcases List.mem_cons.mp hm with rfl | hm
    · exact min_le_left _ _
    · exact le_trans (min_le_right _ _) (ih m hm)

theorem foldr_min_le_init (l : List Nat) (i : Nat) : l.foldr min i ≤ i := by
  induction l with
  | nil => exact le_refl _
  | cons a l ih => exact le_trans (min_le_right _ _) ih

theorem foldr_min_mem (l : List Nat) (i : Nat) :
    l.foldr min i ∈ l ∨ l.foldr min i = i := by
  induction l with
  | nil => right; rfl
  | cons a l ih =>
    rcases le_total a (l.foldr min i) with h | h
    · rw [List.foldr_cons, min_eq_left h]
      exact Or.inl (List.mem_cons_self _ _)
    · rw [List.foldr_cons, min_eq_right h]
      rcases ih with h' | h'
      · exact Or.inl (List.mem_cons_of_mem _ h')
      · exact Or.inr h'

theorem mem_monthsOf {ts : List Txn} {t : Txn} (h : t ∈ ts) :
    t.month ∈ monthsOf ts :=
  List.mem_map_of_mem _ h

theorem le_lastMonth {ts : List Txn} {t : Txn} (h : t ∈ ts) :
    t.month ≤ lastMonth ts :=
  le_foldr_max _ 0 _ (mem_monthsOf h)

theorem lastMonth_mem {ts : List Txn} (h : ts ≠ []) :
    lastMonth ts ∈ monthsOf ts := by
  rcases foldr_max_mem (monthsOf ts) 0 with h' | h'
  · exact h'
  · match ts, h with
    | t :: ts', _ =>
      have h1 : t.month ≤ lastMonth (t :: ts') := le_lastMonth (List.mem_cons_self _ _)
      rw [lastMonth, h'] at h1
      have h2 : t.month = 0 := Nat.le_zero.mp h1
      rw [lastMonth, h', ← h2]
      exact mem_monthsOf (List.mem_cons_self _ _)

theorem firstMonth_le {ts : List Txn} {t : Txn} (h : t ∈ ts) :
    firstMonth ts ≤ t.month :=
  foldr_min_le _ _ _ (mem_monthsOf h)

theorem firstMonth_le_lastMonth (ts : List Txn) : firstMonth ts ≤ lastMonth ts :=
  foldr_min_le_init _ _

theorem firstMonth_mem {ts : List Txn} (h : ts ≠ []) :
    firstMonth ts ∈ monthsOf ts := by
  rcases foldr_min_mem (monthsOf ts) (lastMonth ts) with h' | h'
  · exact h'
  · rw [firstMonth, h']
    exact lastMonth_mem h

theorem lastMonth_perm {ts ts' : List Txn} (h : ts.Perm ts') :
    lastMonth ts = lastMonth ts' := by
  rcases eq_or_ne ts ([] : List Txn) with rfl | hne
  · rw [h.symm.eq_nil]
  · have hne' : ts' ≠ [] := fun he => hne (he ▸ h).eq_nil
    apply le_antisymm
    · obtain ⟨t, ht, htm⟩ := List.mem_map.mp (lastMonth_mem hne)
      rw [← htm]
      exact le_lastMonth (h.mem_iff.mp ht)
    · obtain ⟨t, ht, htm⟩ := List.mem_map.mp (lastMonth_mem hne')
      rw [← htm]
      exact le_lastMonth (h.mem_iff.mpr ht)

theorem firstMonth_perm {ts ts' : List Txn} (h : ts.Perm ts') :
    firstMonth ts = firstMonth ts' := by
  rcases eq_or_ne ts ([] : List Txn) with rfl | hne
  · rw [h.symm.eq_nil]
  · have hne' : ts' ≠ [] := fun he => hne (he ▸ h).eq_nil
    apply le_antisymm
    · obtain ⟨t, ht, htm⟩ := List.mem_map.mp (firstMonth_mem hne')
      rw [← htm]
      exact firstMonth_le (h.mem_iff.mpr ht)
    · obtain ⟨t, ht, htm⟩ := List.mem_map.mp (firstMonth_mem hne)
      rw [← htm]
      exact firstMonth_le (h.mem_iff.mp ht)

theorem monthTotal_perm {ts ts' : List Txn} (h : ts.Perm ts') (m : Nat) :
    monthTotal ts m = monthTotal ts' m :=
  ((h.filter _).map _).sum_eq

theorem monthlySeries_perm {ts ts' : List Txn} (h : ts.Perm ts') :
    monthlySeries ts = monthlySeries ts' := by
  have htot : monthTotal ts = monthTotal ts' := funext (monthTotal_perm h)
  rw [monthlySeries, monthlySeries, firstMonth_perm h, lastMonth_perm h, htot]

theorem months_monthlySeries (ts : List Txn) :
    (monthlySeries ts).map Prod.fst = monthRange (firstMonth ts) (lastMonth ts) := by
  rw [monthlySeries, List.map_map]
  exact List.map_id _

theorem parseRows_isOk (parse : String → Option Nat) :
    ∀ rs : List RawRow,
      (parseRows parse rs).isOk = true ↔ ∀ r ∈ rs, (parse r.orderDate).isSome := by
  intro rs
  induction rs with
  | nil => simp [parseRows, Except.isOk, Except.toBool]
  | cons r rs ih =>
    cases hp : parse r.orderDate with
    | none =>
      simp only [parseRows, hp, Except.isOk, Except.toBool]
      constructor
      · intro h; cases h
      · intro h
        have hr := h r (List.mem_cons_self _ _)
        rw [hp] at hr
        simp at hr
    | some m =>
      cases hpr : parseRows parse rs with
      | error e =>
        rw [hpr] at ih
        simp only [parseRows, hp, hpr, Except.isOk, Except.toBool]
        simp only [Except.isOk, Except.toBool] at ih
        constructor
        · intro h; cases h
        · intro h
          have := ih.mpr (fun r' hr' => h r' (List.mem_cons_of_mem _ hr'))
          cases this
      | ok ts =>
        rw [hpr] at ih
        simp only [parseRows, hp, hpr, Except.isOk, Except.toBool]
        simp only [Except.isOk, Except.toBool] at ih
        simp only [List.mem_cons]
        constructor
        · intro _ r' hr'
          rcases hr' with rfl | hr'
          · rw [hp]; rfl
          · exact (ih.mp trivial) r' hr'
        · intro _; trivial

theorem parseRows_ok_length (parse : String → Option Nat) :
    ∀ (rs : List RawRow) (ts : List Txn),
      parseRows parse rs = .ok ts → ts.length = rs.length := by
  intro rs
  induction rs with
  | nil =>
    intro ts h
    rw [parseRows] at h
    cases h
    rfl
  | cons r rs ih =>
    intro ts h
    rw [parseRows] at h
    cases hp : parse r.orderDate with
    | none => rw [hp] at h; cases h
    | some m =>
      rw [hp] at h
      cases hpr : parseRows parse rs with
      | error e => rw [hpr] at h; cases h
      | ok ts' =>
        rw [hpr] at h
        cases h
        simp [ih ts' hpr]

/-! ### Claims -/

/-- C1 (counterexample): the claim as stated is false. A product observed in
only 2 distinct calendar months (fewer than the minimum 12) that lie 24
months apart has a zero-filled monthly series of 24 entries, so the guard
`len(monthly_sales) < min_months` does not exclude it, and when the
seasonal fit succeeds (which the library permits: the series holds two full
12-month cycles) the product IS a key of the output mapping. -/
theorem c1_distinct_months_counterexample :
    distinctMonths (txnsOf dfC1 "A") = 2 ∧ 2 < 12 ∧
      ((forecast_all_products fit0 dfC1 12).find?
        (fun pr => pr.1 = "A")).isSome = true := by
  refine ⟨by decide, by decide, by decide⟩

/-- C1 (amended): what the guard actually enforces — a product whose
zero-filled monthly series (the contiguous span of calendar months from its
first to its last observed order date) has fewer than `min_months` entries
is absent from the output mapping, for every fitter. -/
theorem c1_short_series_excluded (fitfn : Fitter) (df : List Txn) (minM : Nat)
    (p : String) (h : (monthlySeries (txnsOf df p)).length < minM) :
    (forecast_all_products fitfn df minM).find? (fun pr => pr.1 = p) = none := by
  rw [find?_forecast]
  split
  · simp [perProduct, h]
  · rfl

/-- C1 witness: the amended theorem applied at a concrete short-history
product (5-month span, below the 12-month minimum). -/
theorem c1_short_series_excluded_witness :
    (monthlySeries (txnsOf dfD "B")).length < 12 ∧
      (forecast_all_products fit0 dfD 12).find? (fun pr => pr.1 = "B") = none :=
  ⟨by decide, c1_short_series_excluded fit0 dfD 12 "B" (by decide)⟩

/-- C2: every product present in the output mapping carries exactly 6
forecast entries whose months are strictly increasing and are exactly the 6
calendar months immediately following the product's last observed month
(no gap, no overlap). -/
theorem c2_forecast_shape (fitfn : Fitter) (df : List Txn) (minM : Nat)
    (p : String) (fc : Forecast)
    (h : (p, fc) ∈ forecast_all_products fitfn df minM) :
    fc.length = 6 ∧ (fc.map Prod.fst).Sorted (· < ·) ∧
      fc.map Prod.fst =
        (List.range 6).map (fun i => lastMonth (txnsOf df p) + 1 + i) := by
  rw [forecast_all_products] at h
  obtain ⟨q, hq, heq⟩ := List.mem_filterMap.mp h
  obtain ⟨fc', hper, hpair⟩ := Option.map_eq_some'.mp heq
  have h1 : q = p := congrArg Prod.fst hpair
  have h2 : fc' = fc := congrArg Prod.snd hpair
  subst h1
  subst h2
  rw [perProduct] at hper
  split at hper
  · cases hper
  · cases hfit : fitfn ((monthlySeries (txnsOf df q)).map Prod.snd) with
    | none =>
      simp only [hfit] at hper
      exact Option.noConfusion hper
    | some f =>
      simp only [hfit, Option.some.injEq] at hper
      subst hper
      refine ⟨by simp, ?_, ?_⟩
      · rw [List.map_map]
        exact sorted_shift_range (lastMonth (txnsOf df q) + 1) 6
      · rw [List.map_map]
        rfl

/-- C2 witness: the theorem applied to the product `A` of `dfX`, whose
forecast is present in the output. -/
theorem c2_forecast_shape_witness :
    (("A", (List.range 6).map (fun i => (24 + i, (0 : Rat)))) ∈
        forecast_all_products fit0 dfX 12) ∧
      ((List.range 6).map (fun i => (24 + i, (0 : Rat)))).length = 6 ∧
      (((List.range 6).map (fun i => (24 + i, (0 : Rat)))).map
          Prod.fst).Sorted (· < ·) ∧
      ((List.range 6).map (fun i => (24 + i, (0 : Rat)))).map Prod.fst =
        (List.range 6).map (fun i => lastMonth (txnsOf dfX "A") + 1 + i) :=
  ⟨by decide, c2_forecast_shape fit0 dfX 12 "A" _ (by decide)⟩

/-- C3: when the seasonal fit fails (returns `none`, the embedded image of
the library raising inside the `try`) for a product, the sweep does not
raise: the product is simply not a key of the (total) output mapping, and
every product's entry is still its independent per-product result. -/
theorem c3_fit_failure_silent_skip (fitfn : Fitter) (df : List Txn)
    (minM : Nat) (p : String)
    (h : fitfn ((monthlySeries (txnsOf df p)).map Prod.snd) = none) :
    (forecast_all_products fitfn df minM).find? (fun pr => pr.1 = p) = none ∧
      ∀ q : String,
        (forecast_all_products fitfn df minM).find? (fun pr => pr.1 = q) =
          if q ∈ df.map (fun t => t.product) then
            (perProduct fitfn minM df q).map (fun fc => (q, fc))
          else none := by
  refine ⟨?_, fun q => find?_forecast fitfn df minM q⟩
  rw [find?_forecast]
  split
  · rw [perProduct]
    split
    · rfl
    · rw [h]
      rfl
  · rfl

/-- C3 witness: the theorem applied with the always-failing fitter on a
product with 24 months of history (which passes the history guard). -/
theorem c3_fit_failure_silent_skip_witness :
    fitNone ((monthlySeries (txnsOf dfC1 "A")).map Prod.snd) = none ∧
      (forecast_all_products fitNone dfC1 12).find?
        (fun pr => pr.1 = "A") = none ∧
      (forecast_all_products fitNone dfC1 12).find? (fun pr => pr.1 = "A") =
        (if "A" ∈ dfC1.map (fun t => t.product) then
          (perProduct fitNone 12 dfC1 "A").map (fun fc => ("A", fc))
        else none) :=
  ⟨rfl, (c3_fit_failure_silent_skip fitNone dfC1 12 "A" rfl).1,
    (c3_fit_failure_silent_skip fitNone dfC1 12 "A" rfl).2 "A"⟩

/-- C4: for a product with at least one row, the monthly series is
chronologically ordered (strictly increasing months), contiguous (a month
is present iff it lies between the first and last observed months, which
are themselves observed months and bound all observed months), each entry's
value is the month's transaction total, and a month with no transactions
totals zero. -/
theorem c4_monthly_series_contiguous (df : List Txn) (p : String)
    (h : txnsOf df p ≠ []) :
    ((monthlySeries (txnsOf df p)).map Prod.fst).Sorted (· < ·) ∧
      (∀ m, m ∈ (monthlySeries (txnsOf df p)).map Prod.fst ↔
        firstMonth (txnsOf df p) ≤ m ∧ m ≤ lastMonth (txnsOf df p)) ∧
      (∀ m v, (m, v) ∈ monthlySeries (txnsOf df p) →
        v = monthTotal (txnsOf df p) m) ∧
      (∀ m, (∀ t ∈ txnsOf df p, t.month ≠ m) →
        monthTotal (txnsOf df p) m = 0) ∧
      (∃ t ∈ txnsOf df p, t.month = firstMonth (txnsOf df p)) ∧
      (∀ t ∈ txnsOf df p, firstMonth (txnsOf df p) ≤ t.month) ∧
      (∃ t ∈ txnsOf df p, t.month = lastMonth (txnsOf df p)) ∧
      (∀ t ∈ txnsOf df p, t.month ≤ lastMonth (txnsOf df p)) := by
  refine ⟨?_, ?_, ?_, ?_, ?_, ?_, ?_, ?_⟩
  · rw [months_monthlySeries]
    exact sorted_monthRange _ _
  · intro m
    rw [months_monthlySeries]
    exact mem_monthRange
  · intro m v hmv
    rw [monthlySeries] at hmv
    obtain ⟨m', _, heq⟩ := List.mem_map.mp hmv
    have h1 : m' = m := congrArg Prod.fst heq
    have h2 : monthTotal (txnsOf df p) m' = v := congrArg Prod.snd heq
    rw [← h2, h1]
  · intro m hm
    rw [monthTotal]
    have hf : (txnsOf df p).filter (fun t => t.month = m) = [] := by
      rw [List.filter_eq_nil_iff]
      intro t ht
      simp [hm t ht]
    rw [hf]
    rfl
  · obtain ⟨t, ht, htm⟩ := List.mem_map.mp (firstMonth_mem h)
    exact ⟨t, ht, htm⟩
  · exact fun t ht => firstMonth_le ht
  · obtain ⟨t, ht, htm⟩ := List.mem_map.mp (lastMonth_mem h)
    exact ⟨t, ht, htm⟩
  · exact fun t ht => le_lastMonth ht

/-- C4 witness: the theorem applied to a concrete product observed in
months 1 and 3; the contiguity conjunct instantiated at the silent month 2
shows it is present in the series. -/
theorem c4_monthly_series_contiguous_witness :
    txnsOf dfTwo "A" ≠ [] ∧
      (2 ∈ (monthlySeries (txnsOf dfTwo "A")).map Prod.fst ↔
        firstMonth (txnsOf dfTwo "A") ≤ 2 ∧ 2 ≤ lastMonth (txnsOf dfTwo "A")) :=
  ⟨by decide, (c4_monthly_series_contiguous dfTwo "A" (by decide)).2.1 2⟩

/-- C5: a month's bucket in the monthly series equals the exact sum of the
sales amounts of precisely the product's transactions dated in that month,
and the whole series is invariant under permuting the input rows. -/
theorem c5_bucket_sum_order_independent (df df' : List Txn) (p : String)
    (m : Nat) (v : Rat) (hperm : df.Perm df')
    (hmem : (m, v) ∈ monthlySeries (txnsOf df p)) :
    v = (((txnsOf df p).filter (fun t => t.month = m)).map
        (fun t => t.sales)).sum ∧
      monthlySeries (txnsOf df p) = monthlySeries (txnsOf df' p) := by
  constructor
  · rw [monthlySeries] at hmem
    obtain ⟨m', _, heq⟩ := List.mem_map.mp hmem
    have h1 : m' = m := congrArg Prod.fst heq
    have h2 : monthTotal (txnsOf df p) m' = v := congrArg Prod.snd heq
    rw [← h2, h1]
    rfl
  · exact monthlySeries_perm (hperm.filter _)

/-- C5 witness: the theorem applied to two rows of the same month summing
to 5, against the input with the two rows swapped. -/
theorem c5_bucket_sum_order_independent_witness :
    dfP.Perm dfP' ∧ ((1, (5 : Rat)) ∈ monthlySeries (txnsOf dfP "A")) ∧
      ((5 : Rat) = (((txnsOf dfP "A").filter (fun t => t.month = 1)).map
          (fun t => t.sales)).sum ∧
        monthlySeries (txnsOf dfP "A") = monthlySeries (txnsOf dfP' "A")) :=
  ⟨List.Perm.swap _ _ _,
    by norm_num [dfP, monthlySeries, monthRange, firstMonth, lastMonth,
      monthsOf, monthTotal, txnsOf, List.range_succ],
    c5_bucket_sum_order_independent dfP dfP' "A" 1 5 (List.Perm.swap _ _ _)
      (by norm_num [dfP, monthlySeries, monthRange, firstMonth, lastMonth,
        monthsOf, monthTotal, txnsOf, List.range_succ])⟩

/-- C6: a product is a key of the output mapping iff it occurs in the input,
passes the minimum-history guard, and its fit succeeds — all others are
simply absent (`find?` is `none`, there is no empty or null entry); and on
the concrete two-product input with exactly one qualifying product the
output mapping has exactly the one key. -/
theorem c6_output_keys_exact :
    (∀ (fitfn : Fitter) (df : List Txn) (minM : Nat) (p : String),
      ((forecast_all_products fitfn df minM).find?
          (fun pr => pr.1 = p)).isSome = true ↔
        (p ∈ df.map (fun t => t.product) ∧
          ¬ (monthlySeries (txnsOf df p)).length < minM ∧
          (fitfn ((monthlySeries (txnsOf df p)).map Prod.snd)).isSome = true)) ∧
      (forecast_all_products fit0 dfD 12).map Prod.fst = ["A"] := by
  constructor
  · intro fitfn df minM p
    rw [find?_forecast]
    by_cases hp : p ∈ df.map (fun t => t.product)
    · rw [if_pos hp]
      by_cases hlen : (monthlySeries (txnsOf df p)).length < minM
      · simp [perProduct, hlen, hp]
      · cases hfit : fitfn ((monthlySeries (txnsOf df p)).map Prod.snd) with
        | none => simp [perProduct, hlen, hfit, hp]
        | some f => simp [perProduct, hlen, hfit, hp]
    · rw [if_neg hp]
      simp [hp]
  · decide

/-- C7: the sweep is deterministic and idempotent — the same immutable input
yields the identical output, whose keys are exactly the qualifying products
in first-seen order. -/
theorem c7_sweep_deterministic (fitfn : Fitter) (df : List Txn) (minM : Nat) :
    forecast_all_products fitfn df minM = forecast_all_products fitfn df minM ∧
      (forecast_all_products fitfn df minM).map Prod.fst =
        (uniqueFirstSeen (df.map (fun t => t.product))).filter
          (fun p => (perProduct fitfn minM df p).isSome) :=
  ⟨rfl, map_fst_filterMap _ _⟩

/-- C8: the sweep has no side effects — as a state-passing method it
returns the agent unchanged (the body only reads `self.df`), and its value
is the pure function of the stored table. -/
theorem c8_no_side_effects (fitfn : Fitter) (minM : Nat) (a : Agent) :
    (forecastAllProductsAgent fitfn minM a).2 = a ∧
      (forecastAllProductsAgent fitfn minM a).2.df = a.df ∧
      (forecastAllProductsAgent fitfn minM a).1 =
        forecast_all_products fitfn a.df minM :=
  ⟨rfl, rfl, rfl⟩

/-- C9 (counterexample): the claim's iff fails. A table missing the
required `Sales` column but containing no rows is malformed, yet the sweep
succeeds and returns the empty mapping: the `Sales` access sits inside the
per-product loop body, which never runs. -/
theorem c9_missing_sales_column_counterexample :
    (runSweep parse0 fit0 12 t0).isOk = true ∧ ¬ wellFormedInput parse0 t0 := by
  refine ⟨rfl, by decide⟩

/-- C9 (amended): the pipeline fails hard iff the order-date column is
missing, or some order date is unparseable, or the product-name column is
missing, or the sales column is missing while at least one row exists; on
every other input it returns a mapping without raising. -/
theorem c9_hard_failure_iff (parse : String → Option Nat) (fitfn : Fitter)
    (minM : Nat) (t : RawTable) :
    (runSweep parse fitfn minM t).isOk = true ↔
      ("Order Date" ∈ t.cols ∧ (∀ r ∈ t.rows, (parse r.orderDate).isSome) ∧
        "Product Name" ∈ t.cols ∧ (t.rows = [] ∨ "Sales" ∈ t.cols)) := by
  unfold runSweep loadAgent
  by_cases hod : "Order Date" ∈ t.cols
  · rw [if_pos hod]
    cases hpr : parseRows parse t.rows with
    | error e =>
      have hnall : ¬ ∀ r ∈ t.rows, (parse r.orderDate).isSome := by
        intro hall
        have h1 := (parseRows_isOk parse t.rows).mpr hall
        rw [hpr] at h1
        simp [Except.isOk, Except.toBool] at h1
      show (Except.error e :
        Except LoadError (List (String × Forecast))).isOk = true ↔ _
      simp only [Except.isOk, Except.toBool]
      constructor
      · intro hfalse; cases hfalse
      · rintro ⟨-, hall, -, -⟩
        exact absurd hall hnall
    | ok txns =>
      have hall : ∀ r ∈ t.rows, (parse r.orderDate).isSome :=
        (parseRows_isOk parse t.rows).mp (by rw [hpr]; rfl)
      have hlen := parseRows_ok_length parse t.rows txns hpr
      show (forecastChecked fitfn minM t txns).isOk = true ↔ _
      unfold forecastChecked
      by_cases hpn : "Product Name" ∈ t.cols
      · rw [if_pos hpn]
        by_cases hemp : uniqueFirstSeen (txns.map (fun x => x.product)) = []
        · rw [if_pos hemp]
          have htx : txns = [] :=
            List.map_eq_nil_iff.mp (uniqueFirstSeen_eq_nil.mp hemp)
          have hrows : t.rows = [] := by
            rw [htx] at hlen
            exact List.length_eq_zero.mp hlen.symm
          simp only [Except.isOk, Except.toBool]
          constructor
          · intro _
            exact ⟨hod, hall, hpn, Or.inl hrows⟩
          · intro _
            trivial
        · rw [if_neg hemp]
          have hrows : t.rows ≠ [] := by
            intro hr
            apply hemp
            rw [hr] at hlen
            have htx : txns = [] := List.length_eq_zero.mp hlen
            rw [htx]
            rfl
          by_cases hs : "Sales" ∈ t.cols
          · rw [if_pos hs]
            simp only [Except.isOk, Except.toBool]
            constructor
            · intro _
              exact ⟨hod, hall, hpn, Or.inr hs⟩
            · intro _
              trivial
          · rw [if_neg hs]
            simp only [Except.isOk, Except.toBool]
            constructor
            · intro hfalse; cases hfalse
            · rintro ⟨-, -, -, hor⟩
              rcases hor with hr | hs'
              · exact absurd hr hrows
              · exact absurd hs' hs
      · rw [if_neg hpn]
        simp only [Except.isOk, Except.toBool]
        constructor
        · intro hfalse; cases hfalse
        · rintro ⟨-, -, hpn', -⟩
          exact absurd hpn' hpn
  · rw [if_neg hod]
    simp only [Except.isOk, Except.toBool]
    constructor
    · intro hfalse; cases hfalse
    · rintro ⟨hod', -⟩
      exact absurd hod' hod

/-- C10: on the concrete input with two qualifying products whose last
observed months differ (23 vs 24), the collected table is indexed by the
sorted union of the two forecast ranges (months 24 through 30), each
product's column is non-missing at exactly its own 6 forecast months, and
each column is null at the union months outside its own forecast. -/
theorem c10_frame_union_index :
    lastMonth (txnsOf dfX "A") = 23 ∧ lastMonth (txnsOf dfX "B") = 24 ∧
      frameIndex (forecast_all_products fit0 dfX 12) =
        [24, 25, 26, 27, 28, 29, 30] ∧
      ((forecast_all_products fit0 dfX 12).find?
        (fun pr => pr.1 = "A")).isSome = true ∧
      ((forecast_all_products fit0 dfX 12).find?
        (fun pr => pr.1 = "B")).isSome = true ∧
      (([24, 25, 26, 27, 28, 29, 30].filter (fun m =>
        (frameCell (forecast_all_products fit0 dfX 12) "A" m).isSome)).length
          = 6) ∧
      (([24, 25, 26, 27, 28, 29, 30].filter (fun m =>
        (frameCell (forecast_all_products fit0 dfX 12) "B" m).isSome)).length
          = 6) ∧
      frameCell (forecast_all_products fit0 dfX 12) "A" 30 = none ∧
      frameCell (forecast_all_products fit0 dfX 12) "B" 24 = none := by
  decide

end Superstore
